import Mathlib

/-!
Verification of the OCR_VoiceChat middleware against its specification.

The development shallowly embeds the two core subsystems:
the chat session store of src/middleware/chat_history.py and the
document retriever of src/middleware/document_retriever.py.
The backing file system of the chat store is modelled as a map from
file key (session id) to optional file content; JSON serialization of
a message list round-trips exactly, so a well-formed session record is
carried as the message list itself, and the corruption cases the code
distinguishes (invalid JSON, a JSON object without a messages key) are
separate constructors.  Floating point arithmetic of the retriever is
idealized as real arithmetic.
-/

/-- A JSON object with string keys, idealized with string values;
messages carry two such mappings (document_context, metadata). -/
abbrev Dict := List (String × String)

/-- The message record built by ChatHistory.add_message:
fields id, timestamp, role, content, document_context, metadata,
in the order the source constructs them. -/
structure Message where
  id : String
  timestamp : String
  role : String
  content : String
  document_context : Dict
  metadata : Dict
deriving Repr, DecidableEq

/-- Content of one session file.  ChatHistory.add_message always writes
a JSON object with a messages key holding the message list
(messagesJson).  External corruption can leave invalid JSON
(invalidJson, json.loads raises JSONDecodeError) or a JSON object
lacking the messages key (jsonNoMessagesKey, data.get falls back). -/
inductive FileContent where
  | messagesJson (ms : List Message)
  | jsonNoMessagesKey
  | invalidJson
deriving Repr, DecidableEq

/-- The storage directory: one optional file per session id. -/
abbrev FileStore := String → Option FileContent

/-- A directory with no session files. -/
def emptyStore : FileStore := fun _ => none

namespace ChatHistory

/-- ChatHistory.get_messages: returns [] when the file does not exist,
when json.loads fails, or when the parsed object has no messages key;
otherwise the stored message list. -/
def get_messages (st : FileStore) (session_id : String) : List Message :=
  match st session_id with
  | none => []
  | some (.messagesJson ms) => ms
  | some .jsonNoMessagesKey => []
  | some .invalidJson => []

/-- ChatHistory.add_message: builds the message record (uuid and
timestamp are generated, modelled as the freshId and freshTs inputs;
document_context and metadata default to the empty mapping), loads the
existing messages via get_messages, appends, writes the whole list
back, and returns the stored message. -/
def add_message (st : FileStore) (session_id role content : String)
    (document_context metadata : Option Dict)
    (freshId freshTs : String) : Message × FileStore :=
  let m : Message :=
    { id := freshId
      timestamp := freshTs
      role := role
      content := content
      document_context := document_context.getD []
      metadata := metadata.getD [] }
  let messages := get_messages st session_id
  (m, fun s => if s = session_id then some (.messagesJson (messages ++ [m])) else st s)

/-- ChatHistory.clear_session: removes the session file if it exists
and reports whether it existed. -/
def clear_session (st : FileStore) (session_id : String) : FileStore × Bool :=
  match st session_id with
  | some _ => (fun s => if s = session_id then none else st s, true)
  | none => (st, false)

/-- The statistics record returned by ChatHistory.get_session_stats. -/
structure SessionStats where
  total_messages : Nat
  user_messages : Nat
  assistant_messages : Nat
  has_document_context : Bool
  last_message_at : Option String
deriving Repr, DecidableEq

/-- ChatHistory.get_session_stats: derived view over get_messages;
counts messages whose role is exactly user or exactly assistant,
reports whether any message has a truthy (nonempty) document_context,
and the timestamp of the last message when one exists. -/
def get_session_stats (st : FileStore) (session_id : String) : SessionStats :=
  let messages := get_messages st session_id
  let user_messages := messages.filter (fun m => m.role == "user")
  let assistant_messages := messages.filter (fun m => m.role == "assistant")
  { total_messages := messages.length
    user_messages := user_messages.length
    assistant_messages := assistant_messages.length
    has_document_context := messages.any (fun m => !m.document_context.isEmpty)
    last_message_at := messages.getLast?.map (fun m => m.timestamp) }

/-- One serialized add_message call: the caller-supplied arguments plus
the generated uuid and timestamp of that call. -/
structure AddCall where
  role : String
  content : String
  document_context : Option Dict
  metadata : Option Dict
  freshId : String
  freshTs : String
deriving Repr, DecidableEq

/-- The message record that add_message builds from one call. -/
def mkMessage (c : AddCall) : Message :=
  { id := c.freshId
    timestamp := c.freshTs
    role := c.role
    content := c.content
    document_context := c.document_context.getD []
    metadata := c.metadata.getD [] }

/-- Run a finite sequence of serialized add_message calls on one
session, returning the final store and the messages returned by the
calls, in call order. -/
def runAdds (st : FileStore) (session_id : String) : List AddCall → FileStore × List Message
  | [] => (st, [])
  | c :: cs =>
    let r := add_message st session_id c.role c.content c.document_context c.metadata
      c.freshId c.freshTs
    let rest := runAdds r.2 session_id cs
    (rest.1, r.1 :: rest.2)

lemma add_message_fst (st : FileStore) (session_id role content : String)
    (dc md : Option Dict) (fid fts : String) :
    (add_message st session_id role content dc md fid fts).1 =
      { id := fid, timestamp := fts, role := role, content := content,
        document_context := dc.getD [], metadata := md.getD [] } := rfl

lemma get_messages_add_message (st : FileStore) (session_id role content : String)
    (dc md : Option Dict) (fid fts : String) :
    get_messages (add_message st session_id role content dc md fid fts).2 session_id =
      get_messages st session_id ++
        [(add_message st session_id role content dc md fid fts).1] := by
  simp [add_message, get_messages]

lemma runAdds_spec (session_id : String) (calls : List AddCall) : ∀ st : FileStore,
    (runAdds st session_id calls).2 = calls.map mkMessage ∧
    get_messages (runAdds st session_id calls).1 session_id =
      get_messages st session_id ++ calls.map mkMessage := by
  induction calls with
  | nil => intro st; simp [runAdds]
  | cons c cs ih =>
    intro st
    have h2 := get_messages_add_message st session_id c.role c.content
      c.document_context c.metadata c.freshId c.freshTs
    have hm : (add_message st session_id c.role c.content c.document_context c.metadata
        c.freshId c.freshTs).1 = mkMessage c := rfl
    obtain ⟨ihl, ihr⟩ := ih (add_message st session_id c.role c.content
      c.document_context c.metadata c.freshId c.freshTs).2
    constructor
    · simp [runAdds, ihl, hm]
    · simp [runAdds, ihr, h2, hm]

end ChatHistory

lemma length_filter_add_length_filter_le {α : Type} (l : List α) (p q : α → Bool)
    (h : ∀ a, p a = true → q a = false) :
    (l.filter p).length + (l.filter q).length ≤ l.length := by
  induction l with
  | nil => simp
  | cons a t ih =>
    by_cases hp : p a = true
    · have hq := h a hp
      simp only [List.filter_cons, hp, hq, if_true, if_false, Bool.false_eq_true,
        List.length_cons]
      omega
    · by_cases hq : q a = true
      · simp only [List.filter_cons, hp, hq, Bool.false_eq_true, if_false, if_true,
          List.length_cons]
        omega
      · simp only [List.filter_cons, hp, hq, Bool.false_eq_true, if_false,
          List.length_cons]
        omega

/-- C1: for every session id and every finite sequence of serialized add_message
calls on that session, starting from an absent session, a subsequent get_messages
returns exactly one message per call, in call order, and each message holds
exactly the fields stored at its call (mkMessage of the call). -/
theorem chatHistory_append_only (st : FileStore) (session_id : String)
    (calls : List ChatHistory.AddCall) (h : st session_id = none) :
    (ChatHistory.runAdds st session_id calls).2 = calls.map ChatHistory.mkMessage ∧
    ChatHistory.get_messages (ChatHistory.runAdds st session_id calls).1 session_id =
      calls.map ChatHistory.mkMessage ∧
    (ChatHistory.get_messages (ChatHistory.runAdds st session_id calls).1 session_id).length =
      calls.length := by
  obtain ⟨h1, h2⟩ := ChatHistory.runAdds_spec session_id calls st
  have h0 : ChatHistory.get_messages st session_id = [] := by
    simp [ChatHistory.get_messages, h]
  rw [h2, h0]
  exact ⟨h1, by simp, by simp⟩

/-- C1 witness: two concrete calls on session s1 of the empty store. -/
theorem chatHistory_append_only_witness :
    (ChatHistory.runAdds emptyStore "s1"
        [⟨"user", "hello", none, none, "id1", "t1"⟩,
         ⟨"assistant", "hi", none, none, "id2", "t2"⟩]).2 =
      [ChatHistory.mkMessage ⟨"user", "hello", none, none, "id1", "t1"⟩,
       ChatHistory.mkMessage ⟨"assistant", "hi", none, none, "id2", "t2"⟩] ∧
    ChatHistory.get_messages
        (ChatHistory.runAdds emptyStore "s1"
          [⟨"user", "hello", none, none, "id1", "t1"⟩,
           ⟨"assistant", "hi", none, none, "id2", "t2"⟩]).1 "s1" =
      [ChatHistory.mkMessage ⟨"user", "hello", none, none, "id1", "t1"⟩,
       ChatHistory.mkMessage ⟨"assistant", "hi", none, none, "id2", "t2"⟩] ∧
    (ChatHistory.get_messages
        (ChatHistory.runAdds emptyStore "s1"
          [⟨"user", "hello", none, none, "id1", "t1"⟩,
           ⟨"assistant", "hi", none, none, "id2", "t2"⟩]).1 "s1").length = 2 :=
  chatHistory_append_only emptyStore "s1" _ rfl

/-- C2: get_messages returns the empty list, and is total (never raises), both
when the session file is absent and when its content is not valid JSON. -/
theorem get_messages_absent_or_corrupt (st : FileStore) (session_id : String)
    (h : st session_id = none ∨ st session_id = some FileContent.invalidJson) :
    ChatHistory.get_messages st session_id = [] := by
  rcases h with h | h <;> simp [ChatHistory.get_messages, h]

/-- C2 witness: the empty store, and a store whose record for s2 is corrupt. -/
theorem get_messages_absent_or_corrupt_witness :
    ChatHistory.get_messages emptyStore "s1" = [] ∧
    ChatHistory.get_messages (fun _ => some FileContent.invalidJson) "s2" = [] :=
  ⟨get_messages_absent_or_corrupt emptyStore "s1" (Or.inl rfl),
   get_messages_absent_or_corrupt (fun _ => some FileContent.invalidJson) "s2" (Or.inr rfl)⟩

/-- C7: a message written by add_message and reread via get_messages is the
last stored message, equal field for field to the returned one; role, content,
document_context and metadata come from the caller (absent mappings default to
empty), while id and timestamp are the generated values. -/
theorem message_round_trip (st : FileStore) (session_id role content : String)
    (dc md : Option Dict) (fid fts : String) :
    ChatHistory.get_messages
        (ChatHistory.add_message st session_id role content dc md fid fts).2 session_id =
      ChatHistory.get_messages st session_id ++
        [(ChatHistory.add_message st session_id role content dc md fid fts).1] ∧
    (ChatHistory.get_messages
        (ChatHistory.add_message st session_id role content dc md fid fts).2
        session_id).getLast? =
      some (ChatHistory.add_message st session_id role content dc md fid fts).1 ∧
    (ChatHistory.add_message st session_id role content dc md fid fts).1 =
      { id := fid, timestamp := fts, role := role, content := content,
        document_context := dc.getD [], metadata := md.getD [] } := by
  refine ⟨ChatHistory.get_messages_add_message st session_id role content dc md fid fts,
    ?_, rfl⟩
  rw [ChatHistory.get_messages_add_message st session_id role content dc md fid fts]
  simp

/-- C8: clear_session deletes the backing record and returns true exactly when
one existed; an immediately repeated clear_session returns false. -/
theorem clear_session_idempotent (st : FileStore) (session_id : String) :
    ((ChatHistory.clear_session st session_id).2 = (st session_id).isSome) ∧
    ((ChatHistory.clear_session st session_id).1 session_id = none) ∧
    ((ChatHistory.clear_session
        (ChatHistory.clear_session st session_id).1 session_id).2 = false) := by
  cases h : st session_id with
  | none => simp [ChatHistory.clear_session, h]
  | some fc => simp [ChatHistory.clear_session, h]

/-- C9: get_session_stats is a pure function of the result of get_messages;
total_messages is the message count, user_messages and assistant_messages
count the messages with exactly those roles, last_message_at is the timestamp
of the last message or none when there is none; and in the concrete scenario
of a user hello followed by an assistant hi there on session s1, the stats
are two total, one user, one assistant, no document context, and the
timestamp of the second message. -/
theorem get_session_stats_spec :
    (∀ (st st2 : FileStore) (sid sid2 : String),
      ChatHistory.get_messages st sid = ChatHistory.get_messages st2 sid2 →
      ChatHistory.get_session_stats st sid = ChatHistory.get_session_stats st2 sid2) ∧
    (∀ (st : FileStore) (sid : String),
      (ChatHistory.get_session_stats st sid).total_messages =
        (ChatHistory.get_messages st sid).length ∧
      (ChatHistory.get_session_stats st sid).user_messages =
        (ChatHistory.get_messages st sid).countP (fun m => m.role == "user") ∧
      (ChatHistory.get_session_stats st sid).assistant_messages =
        (ChatHistory.get_messages st sid).countP (fun m => m.role == "assistant") ∧
      (ChatHistory.get_session_stats st sid).last_message_at =
        ((ChatHistory.get_messages st sid).getLast?).map (fun m => m.timestamp)) ∧
    (∀ fid1 fts1 fid2 fts2 : String,
      ChatHistory.get_session_stats
        (ChatHistory.add_message
          (ChatHistory.add_message emptyStore "s1" "user" "hello" none none fid1 fts1).2
          "s1" "assistant" "hi there" none none fid2 fts2).2 "s1" =
      { total_messages := 2, user_messages := 1, assistant_messages := 1,
        has_document_context := false, last_message_at := some fts2 }) := by
  refine ⟨?_, ?_, ?_⟩
  · intro st st2 sid sid2 h
    simp [ChatHistory.get_session_stats, h]
  · intro st sid
    refine ⟨rfl, ?_, ?_, rfl⟩ <;>
      simp [ChatHistory.get_session_stats, List.countP_eq_length_filter]
  · intro fid1 fts1 fid2 fts2
    have h1 := ChatHistory.get_messages_add_message emptyStore "s1" "user" "hello"
      none none fid1 fts1
    have h2 := ChatHistory.get_messages_add_message
      (ChatHistory.add_message emptyStore "s1" "user" "hello" none none fid1 fts1).2
      "s1" "assistant" "hi there" none none fid2 fts2
    have h0 : ChatHistory.get_messages emptyStore "s1" = [] := rfl
    rw [h0] at h1
    rw [h1] at h2
    simp only [ChatHistory.get_session_stats, h2, ChatHistory.add_message_fst,
      List.nil_append]
    simp [ChatHistory.mkMessage]

/-- C9 witness: the purity hypothesis discharged at two concrete stores with
equal message lists (the empty store and a corrupt record). -/
theorem get_session_stats_spec_witness :
    ChatHistory.get_session_stats emptyStore "s1" =
      ChatHistory.get_session_stats (fun _ => some FileContent.invalidJson) "s2" :=
  get_session_stats_spec.1 emptyStore (fun _ => some FileContent.invalidJson) "s1" "s2" rfl

/-- C10: user_messages plus assistant_messages never exceeds total_messages,
and the bound is strict for a reachable session: add_message accepts the role
system unvalidated and stores the message, and that message is counted in
total_messages but in neither role count. -/
theorem stats_role_count_bound :
    (∀ (st : FileStore) (sid : String),
      (ChatHistory.get_session_stats st sid).user_messages +
        (ChatHistory.get_session_stats st sid).assistant_messages ≤
        (ChatHistory.get_session_stats st sid).total_messages) ∧
    (ChatHistory.get_messages
        (ChatHistory.add_message emptyStore "s1" "system" "boot" none none "id0" "t0").2
        "s1" =
      [(ChatHistory.add_message emptyStore "s1" "system" "boot" none none "id0" "t0").1] ∧
    (ChatHistory.add_message emptyStore "s1" "system" "boot" none none "id0" "t0").1.role =
      "system" ∧
    (ChatHistory.get_session_stats
        (ChatHistory.add_message emptyStore "s1" "system" "boot" none none "id0" "t0").2
        "s1").user_messages +
      (ChatHistory.get_session_stats
        (ChatHistory.add_message emptyStore "s1" "system" "boot" none none "id0" "t0").2
        "s1").assistant_messages <
      (ChatHistory.get_session_stats
        (ChatHistory.add_message emptyStore "s1" "system" "boot" none none "id0" "t0").2
        "s1").total_messages) := by
  refine ⟨?_, ?_, rfl, ?_⟩
  · intro st sid
    exact length_filter_add_length_filter_le (ChatHistory.get_messages st sid)
      (fun m => m.role == "user") (fun m => m.role == "assistant")
      (fun m hp => by
        simp only [beq_iff_eq] at hp ⊢
        rw [hp]
        decide)
  · have h1 := ChatHistory.get_messages_add_message emptyStore "s1" "system" "boot"
      none none "id0" "t0"
    have h0 : ChatHistory.get_messages emptyStore "s1" = [] := rfl
    rw [h0] at h1
    simpa using h1
  · decide

/-!
Document retriever (src/middleware/document_retriever.py).

The embedding model call (SentenceTransformer.encode) and the external
hybrid retriever package are collaborators outside the repository: they
are passed in as function parameters (encode returning none models a
raised exception).  numpy argsort is ascending; it is modelled as the
stable ascending sort on indices (Mathlib insertionSort), and the numpy
slice a[-k:] keeps its Python quirk that -0 means the whole array.
-/

/-- Python str.strip whitespace test (ASCII whitespace). -/
def isPySpace (c : Char) : Bool :=
  c == ' ' || c == '\t' || c == '\n' || c == '\r'

/-- Python chunk.strip(): drop leading and trailing whitespace. -/
def pyStrip (s : String) : String :=
  ⟨((s.data.dropWhile isPySpace).reverse.dropWhile isPySpace).reverse⟩

/-- The comprehension of add_documents:
chunk.strip() for chunk in chunks if chunk.strip(). -/
def cleanChunks (chunks : List String) : List String :=
  (chunks.filter (fun c => pyStrip c != "")).map pyStrip

/-- The mutable state of a DocumentRetriever instance: the documents list
and the optional embeddings matrix (None before any ingest). -/
structure DocumentRetriever where
  documents : List String
  document_embeddings : Option (List (List ℝ))

/-- DocumentRetriever.add_documents: returns unchanged on an empty chunk
list; otherwise assigns the cleaned chunks to documents first, returns if
nothing survived cleaning, then calls the embedding model on the cleaned
documents; a raised embedding call (encode = none) propagates with the
documents already replaced and the embeddings untouched.  The Bool
records whether the call raised. -/
def DocumentRetriever.add_documents
    (encode : List String → Option (List (List ℝ)))
    (st : DocumentRetriever) (chunks : List String) :
    DocumentRetriever × Bool :=
  if chunks = [] then (st, false)
  else
    let docs := cleanChunks chunks
    if docs = [] then ({ st with documents := docs }, false)
    else
      match encode docs with
      | some embs => ({ documents := docs, document_embeddings := some embs }, false)
      | none => ({ st with documents := docs }, true)

/-- One formatted result of DocumentRetriever.retrieve. -/
structure FormattedResult where
  content : String
  score : ℝ
  semantic_score : ℝ
  bm25_score : ℝ

/-- DocumentRetriever.retrieve: returns [] when no documents or no
embeddings are loaded; everything after that guard (query embedding,
the external hybrid retrieval and result formatting) is the
hybridPart collaborator applied to the loaded documents and
embeddings. -/
def DocumentRetriever.retrieve
    (hybridPart : List String → List (List ℝ) → List FormattedResult)
    (st : DocumentRetriever) : List FormattedResult :=
  match st.documents, st.document_embeddings with
  | [], _ => []
  | _ :: _, none => []
  | d :: ds, some embs => hybridPart (d :: ds) embs

/-- numpy dot of two vectors. -/
noncomputable def npDot (v w : List ℝ) : ℝ :=
  (List.zipWith (fun a b => a * b) v w).sum

/-- numpy linalg.norm of a vector. -/
noncomputable def npNorm (v : List ℝ) : ℝ :=
  Real.sqrt ((v.map (fun x => x * x)).sum)

/-- The score vector of SimpleRetriever.retrieve:
np.dot(embeddings, q) / (norms of the rows * norm of q + 1e-9). -/
noncomputable def cosineScores (E : List (List ℝ)) (q : List ℝ) : List ℝ :=
  E.map (fun row => npDot row q / (npNorm row * npNorm q + 1e-9))

/-- numpy argsort: indices ordered by ascending score, modelled stable. -/
noncomputable def argsortAsc (scores : List ℝ) : List Nat :=
  (List.range scores.length).insertionSort
    (fun i j => scores.getD i 0 ≤ scores.getD j 0)

/-- The Python slice a[-k:] on a list: the last k elements, except that
k = 0 yields the whole list (since -0 is 0). -/
def lastSlice (k : Nat) (l : List α) : List α :=
  if k = 0 then l else l.drop (l.length - k)

/-- top_indices of SimpleRetriever.retrieve: np.argsort(scores)[-k:][::-1]. -/
noncomputable def topIndices (scores : List ℝ) (k : Nat) : List Nat :=
  (lastSlice k (argsortAsc scores)).reverse

/-- SimpleRetriever.retrieve: cosine scores against the query embedding,
then the documents and scores at the top k indices, best first. -/
noncomputable def SimpleRetriever.retrieve (documents : List String)
    (embeddings : List (List ℝ)) (query_embedding : List ℝ) (k : Nat) :
    List String × List ℝ :=
  let scores := cosineScores embeddings query_embedding
  let top_indices := topIndices scores k
  (top_indices.map (fun i => documents.getD i ""),
   top_indices.map (fun i => scores.getD i 0))

/-- C4 counterexample: with a loaded corpus of one old chunk, an ingest of a
new chunk whose embedding call fails raises (no DimensionMismatch exists in
the code since embeddings are derived from the chunks, not supplied), and the
store is left half updated rather than unchanged: documents hold the new
chunk while the embeddings are still those of the old corpus. -/
theorem failed_ingest_changes_store :
    (DocumentRetriever.add_documents (fun _ => none)
        ⟨["old"], some [[(1 : ℝ)]]⟩ ["new"]).2 = true ∧
    (DocumentRetriever.add_documents (fun _ => none)
        ⟨["old"], some [[(1 : ℝ)]]⟩ ["new"]).1.documents = ["new"] ∧
    (DocumentRetriever.add_documents (fun _ => none)
        ⟨["old"], some [[(1 : ℝ)]]⟩ ["new"]).1.document_embeddings =
      some [[(1 : ℝ)]] ∧
    (DocumentRetriever.add_documents (fun _ => none)
        ⟨["old"], some [[(1 : ℝ)]]⟩ ["new"]).1.documents ≠ ["old"] := by
  refine ⟨rfl, rfl, rfl, ?_⟩
  intro h
  have : (["new"] : List String) = ["old"] := h
  simp at this

/-- C4 amended: add_documents receives only chunks and derives the embeddings
from them, so an ingest never fails with a chunk-embedding count mismatch; an
empty chunk list leaves the store unchanged; a successful embedding call
replaces documents and embeddings together; a failed embedding call raises
after documents were already replaced, leaving the previous embeddings in
place (the store is half updated, not unchanged). -/
theorem add_documents_spec (encode : List String → Option (List (List ℝ)))
    (st : DocumentRetriever) (chunks : List String) :
    (chunks = [] → DocumentRetriever.add_documents encode st chunks = (st, false)) ∧
    (chunks ≠ [] → cleanChunks chunks = [] →
      DocumentRetriever.add_documents encode st chunks =
        ({ st with documents := [] }, false)) ∧
    (∀ embs, chunks ≠ [] → cleanChunks chunks ≠ [] →
      encode (cleanChunks chunks) = some embs →
      DocumentRetriever.add_documents encode st chunks =
        (⟨cleanChunks chunks, some embs⟩, false)) ∧
    (chunks ≠ [] → cleanChunks chunks ≠ [] →
      encode (cleanChunks chunks) = none →
      DocumentRetriever.add_documents encode st chunks =
        (⟨cleanChunks chunks, st.document_embeddings⟩, true)) := by
  refine ⟨?_, ?_, ?_, ?_⟩
  · intro h; simp [DocumentRetriever.add_documents, h]
  · intro h hc; simp [DocumentRetriever.add_documents, h, hc]
  · intro embs h hc he; simp [DocumentRetriever.add_documents, h, hc, he]
  · intro h hc he; simp [DocumentRetriever.add_documents, h, hc, he]

/-- C4 witness: the amended failing branch at a concrete store and chunk
list, and the successful branch at another. -/
theorem add_documents_spec_witness :
    DocumentRetriever.add_documents (fun _ => none)
      ⟨["old"], some [[(1 : ℝ)]]⟩ ["new"] =
      (⟨cleanChunks ["new"], some [[(1 : ℝ)]]⟩, true) ∧
    DocumentRetriever.add_documents (fun _ => some [[(2 : ℝ)]])
      ⟨["old"], some [[(1 : ℝ)]]⟩ ["fresh text"] =
      (⟨cleanChunks ["fresh text"], some [[(2 : ℝ)]]⟩, false) :=
  ⟨(add_documents_spec (fun _ => none) ⟨["old"], some [[(1 : ℝ)]]⟩ ["new"]).2.2.2
      (by decide) (by decide) rfl,
   (add_documents_spec (fun _ => some [[(2 : ℝ)]]) ⟨["old"], some [[(1 : ℝ)]]⟩
      ["fresh text"]).2.2.1 [[(2 : ℝ)]] (by decide) (by decide) rfl⟩

/-- C5: retrieve returns the empty list, raising nothing, whenever the chunk
store is empty: no documents loaded, no embeddings present, or a load whose
chunks were all filtered out (which empties the documents list). -/
theorem retrieve_empty_store (hybridPart : List String → List (List ℝ) → List FormattedResult)
    (st : DocumentRetriever) :
    (st.documents = [] → DocumentRetriever.retrieve hybridPart st = []) ∧
    (st.document_embeddings = none → DocumentRetriever.retrieve hybridPart st = []) ∧
    (∀ encode chunks, chunks ≠ [] → cleanChunks chunks = [] →
      DocumentRetriever.retrieve hybridPart
        (DocumentRetriever.add_documents encode st chunks).1 = []) := by
  refine ⟨?_, ?_, ?_⟩
  · intro h
    simp [DocumentRetriever.retrieve, h]
  · intro h
    cases hd : st.documents with
    | nil => simp [DocumentRetriever.retrieve, hd]
    | cons d ds => simp [DocumentRetriever.retrieve, hd, h]
  · intro encode chunks hne hcl
    have := (add_documents_spec encode st chunks).2.1 hne hcl
    rw [this]
    simp [DocumentRetriever.retrieve]

/-- C5 witness: an empty store, a store without embeddings, and a load of
whitespace-only chunks, each with a hybrid stage that would return a result
if it were reached. -/
theorem retrieve_empty_store_witness :
    DocumentRetriever.retrieve (fun ds _ => [⟨ds.headD "", 0, 0, 0⟩])
      ⟨[], some [[(1 : ℝ)]]⟩ = [] ∧
    DocumentRetriever.retrieve (fun ds _ => [⟨ds.headD "", 0, 0, 0⟩])
      ⟨["doc"], none⟩ = [] ∧
    DocumentRetriever.retrieve (fun ds _ => [⟨ds.headD "", 0, 0, 0⟩])
      (DocumentRetriever.add_documents (fun _ => some [[(1 : ℝ)]])
        ⟨["doc"], some [[(1 : ℝ)]]⟩ ["  ", "", " "]).1 = [] :=
  ⟨(retrieve_empty_store (fun ds _ => [⟨ds.headD "", 0, 0, 0⟩])
      ⟨[], some [[(1 : ℝ)]]⟩).1 rfl,
   (retrieve_empty_store (fun ds _ => [⟨ds.headD "", 0, 0, 0⟩]) ⟨["doc"], none⟩).2.1 rfl,
   (retrieve_empty_store (fun ds _ => [⟨ds.headD "", 0, 0, 0⟩])
      ⟨["doc"], some [[(1 : ℝ)]]⟩).2.2 (fun _ => some [[(1 : ℝ)]]) ["  ", "", " "]
      (by decide) (by decide)⟩

open List

lemma pair_sublist_range {i j n : Nat} (hij : i < j) (hj : j < n) :
    [i, j] <+ List.range n := by
  induction n with
  | zero => omega
  | succ m ih =>
    rw [List.range_succ]
    rcases Nat.lt_or_ge j m with h | h
    · exact (ih h).trans (List.sublist_append_left _ _)
    · have hj2 : j = m := by omega
      subst hj2
      have h1 : [i] <+ List.range j :=
        List.singleton_sublist.mpr (List.mem_range.mpr hij)
      exact List.Sublist.append h1 (List.Sublist.refl [j])

lemma sublist_suffix_of_mem {l s : List Nat} {i j : Nat} (hnd : l.Nodup)
    (hsuf : s <:+ l) (hij : [i, j] <+ l) (hi : i ∈ s) (hj : j ∈ s) :
    [i, j] <+ s := by
  obtain ⟨p, rfl⟩ := hsuf
  have hdisj : p.Disjoint s := (List.nodup_append.mp hnd).2.2
  rcases List.sublist_append_iff.mp hij with ⟨l₁, l₂, heq, h1, h2⟩
  rcases l₁ with _ | ⟨a, l₁⟩
  · rw [List.nil_append] at heq
    rw [heq]
    exact h2
  · rcases l₁ with _ | ⟨b, l₁⟩
    · have ha : i = a := by
        simp only [List.cons_append, List.nil_append, List.cons.injEq] at heq
        exact heq.1
      have hip : i ∈ p := by
        rw [ha]
        exact List.singleton_sublist.mp h1
      exact absurd hi (hdisj hip)
    · have hb : j = b := by
        simp only [List.cons_append, List.cons.injEq] at heq
        exact heq.2.1
      have hjp : j ∈ p := by
        rw [hb]
        exact h1.subset (by simp)
      exact absurd hj (hdisj hjp)

lemma argsortAsc_perm (scores : List ℝ) :
    argsortAsc scores ~ List.range scores.length :=
  List.perm_insertionSort _ _

lemma argsortAsc_nodup (scores : List ℝ) : (argsortAsc scores).Nodup :=
  ((argsortAsc_perm scores).symm).nodup (List.nodup_range _)

lemma argsortAsc_mem {scores : List ℝ} {i : Nat} (hi : i < scores.length) :
    i ∈ argsortAsc scores :=
  ((argsortAsc_perm scores).mem_iff).mpr (List.mem_range.mpr hi)

lemma argsortAsc_sorted (scores : List ℝ) :
    (argsortAsc scores).Sorted (fun i j => scores.getD i 0 ≤ scores.getD j 0) := by
  haveI : IsTotal Nat (fun i j => scores.getD i 0 ≤ scores.getD j 0) :=
    ⟨fun a b => le_total _ _⟩
  haveI : IsTrans Nat (fun i j => scores.getD i 0 ≤ scores.getD j 0) :=
    ⟨fun a b c hab hbc => le_trans hab hbc⟩
  exact List.sorted_insertionSort _ _

lemma argsortAsc_stable {scores : List ℝ} {i j : Nat} (hij : i < j)
    (hj : j < scores.length) (hle : scores.getD i 0 ≤ scores.getD j 0) :
    [i, j] <+ argsortAsc scores := by
  have hr : [i, j] <+ List.range scores.length := pair_sublist_range hij hj
  exact List.pair_sublist_insertionSort hle hr

lemma lastSlice_suffix (k : Nat) (l : List α) : lastSlice k l <:+ l := by
  unfold lastSlice
  split
  · exact List.suffix_rfl
  · exact List.drop_suffix _ _

lemma argsortAsc_length (scores : List ℝ) :
    (argsortAsc scores).length = scores.length := by
  simp [argsortAsc, List.length_insertionSort, List.length_range]

lemma topIndices_sorted (scores : List ℝ) (k : Nat) :
    (topIndices scores k).Pairwise (fun i j => scores.getD j 0 ≤ scores.getD i 0) := by
  have h2 : (lastSlice k (argsortAsc scores)).Pairwise
      (fun i j => scores.getD i 0 ≤ scores.getD j 0) :=
    (argsortAsc_sorted scores).sublist (lastSlice_suffix k (argsortAsc scores)).sublist
  unfold topIndices
  exact List.pairwise_reverse.mpr h2

lemma topIndices_length (scores : List ℝ) (k : Nat) (hk : 1 ≤ k) :
    (topIndices scores k).length = min k scores.length := by
  have hk0 : k ≠ 0 := by omega
  simp only [topIndices, lastSlice, hk0, if_false, List.length_reverse,
    List.length_drop, argsortAsc_length]
  omega

lemma topIndices_dominant (scores : List ℝ) (k i : Nat) (hi : i < scores.length)
    (hni : i ∉ topIndices scores k) :
    ∀ j ∈ topIndices scores k, scores.getD i 0 ≤ scores.getD j 0 := by
  intro j hj
  have hil : i ∈ argsortAsc scores := argsortAsc_mem hi
  by_cases hk : k = 0
  · exact absurd (by simpa [topIndices, lastSlice, hk] using hil) hni
  · have hdrop : lastSlice k (argsortAsc scores) =
        (argsortAsc scores).drop ((argsortAsc scores).length - k) := by
      simp [lastSlice, hk]
    have hni2 : i ∉ (argsortAsc scores).drop ((argsortAsc scores).length - k) := by
      rw [← hdrop]
      intro hmem
      exact hni (by simpa [topIndices] using hmem)
    have hjd : j ∈ (argsortAsc scores).drop ((argsortAsc scores).length - k) := by
      rw [← hdrop]
      simpa [topIndices] using hj
    have hsplit : i ∈ (argsortAsc scores).take ((argsortAsc scores).length - k) ++
        (argsortAsc scores).drop ((argsortAsc scores).length - k) := by
      rw [List.take_append_drop]
      exact hil
    have hit : i ∈ (argsortAsc scores).take ((argsortAsc scores).length - k) := by
      rcases List.mem_append.mp hsplit with h | h
      · exact h
      · exact absurd h hni2
    exact (argsortAsc_sorted scores).rel_of_mem_take_of_mem_drop hit hjd

lemma argsortAsc_pair_eval :
    argsortAsc (cosineScores [[(1 : ℝ)], [1]] [1]) = [0, 1] := by
  have hr : (cosineScores [[(1 : ℝ)], [1]] [1]).getD 0 0 ≤
      (cosineScores [[(1 : ℝ)], [1]] [1]).getD 1 0 := le_of_eq rfl
  unfold argsortAsc
  have hlen : (cosineScores [[(1 : ℝ)], [1]] [1]).length = 2 := rfl
  rw [hlen]
  have hrange : List.range 2 = [0, 1] := rfl
  rw [hrange]
  simp only [List.insertionSort, List.orderedInsert]
  rw [if_pos hr]

lemma topIndices_pair_eval :
    topIndices (cosineScores [[(1 : ℝ)], [1]] [1]) 2 = [1, 0] := by
  unfold topIndices
  rw [argsortAsc_pair_eval]
  rfl

/-- C3 counterexample: two chunks with identical cosine scores (two identical
embedding rows against the same query) are ranked with the chunk of larger
original index first: the semantic scorer returns [b, a], not [a, b]. -/
theorem tie_break_ascending_counterexample :
    (cosineScores [[(1 : ℝ)], [1]] [1]).getD 0 0 =
      (cosineScores [[(1 : ℝ)], [1]] [1]).getD 1 0 ∧
    (SimpleRetriever.retrieve ["a", "b"] [[(1 : ℝ)], [1]] [1] 2).1 = ["b", "a"] := by
  refine ⟨rfl, ?_⟩
  show (topIndices (cosineScores [[(1 : ℝ)], [1]] [1]) 2).map
      (fun i => ["a", "b"].getD i "") = ["b", "a"]
  rw [topIndices_pair_eval]
  rfl

/-- C3 amended: in the semantic scorer ranked output, whenever two chunks
have identical scores and both are retained in the top k, the chunk with the
larger original index appears before the one with the smaller original index
(numpy argsort ascending, modelled stable, is sliced and then reversed, which
flips the order of tied indices). -/
theorem tie_break_descending_index (E : List (List ℝ)) (q : List ℝ) (k i j : Nat)
    (hij : i < j) (hj : j < E.length)
    (heq : (cosineScores E q).getD i 0 = (cosineScores E q).getD j 0)
    (hi : i ∈ topIndices (cosineScores E q) k)
    (hjm : j ∈ topIndices (cosineScores E q) k) :
    [j, i] <+ topIndices (cosineScores E q) k := by
  have hlen : (cosineScores E q).length = E.length := by simp [cosineScores]
  have hstab : [i, j] <+ argsortAsc (cosineScores E q) :=
    argsortAsc_stable hij (by omega) (le_of_eq heq)
  have hi2 : i ∈ lastSlice k (argsortAsc (cosineScores E q)) := by
    rw [topIndices, List.mem_reverse] at hi
    exact hi
  have hj2 : j ∈ lastSlice k (argsortAsc (cosineScores E q)) := by
    rw [topIndices, List.mem_reverse] at hjm
    exact hjm
  have hsl : [i, j] <+ lastSlice k (argsortAsc (cosineScores E q)) :=
    sublist_suffix_of_mem (argsortAsc_nodup _)
      (lastSlice_suffix k (argsortAsc (cosineScores E q))) hstab hi2 hj2
  have hrev := hsl.reverse
  rw [show ([i, j] : List Nat).reverse = [j, i] from rfl] at hrev
  rw [topIndices]
  exact hrev

/-- C3 amended witness: the concrete tied pair, with the hypotheses
discharged at index 0 and 1 of the two identical embedding rows. -/
theorem tie_break_descending_index_witness :
    [1, 0] <+ topIndices (cosineScores [[(1 : ℝ)], [1]] [1]) 2 :=
  tie_break_descending_index [[(1 : ℝ)], [1]] [1] 2 0 1 (by decide)
    (by decide) rfl
    (by rw [topIndices_pair_eval]; decide)
    (by rw [topIndices_pair_eval]; decide)

/-- C6: the semantic score of chunk i is the dot product of row i with the
query divided by the product of their norms plus 1e-9, and for k at least 1
the scorer returns min k N pairs whose scores are in descending order, and
every chunk left out scores no higher than every chunk returned. -/
theorem semantic_scorer_spec :
    (∀ (E : List (List ℝ)) (q : List ℝ) (i : Nat), i < E.length →
      (cosineScores E q).getD i 0 =
        npDot (E.getD i []) q / (npNorm (E.getD i []) * npNorm q + 1e-9)) ∧
    (∀ (documents : List String) (E : List (List ℝ)) (q : List ℝ) (k : Nat),
      1 ≤ k →
      (SimpleRetriever.retrieve documents E q k).2.Pairwise (fun a b => b ≤ a) ∧
      (SimpleRetriever.retrieve documents E q k).2.length = min k E.length ∧
      (SimpleRetriever.retrieve documents E q k).1.length = min k E.length ∧
      (∀ i : Nat, i < E.length → i ∉ topIndices (cosineScores E q) k →
        ∀ j ∈ topIndices (cosineScores E q) k,
          (cosineScores E q).getD i 0 ≤ (cosineScores E q).getD j 0)) := by
  constructor
  · intro E q i hi
    have hi2 : i < (cosineScores E q).length := by
      simpa [cosineScores] using hi
    rw [List.getD_eq_getElem (cosineScores E q) 0 hi2,
      List.getD_eq_getElem E [] hi]
    simp [cosineScores]
  · intro documents E q k hk
    have hlen : (cosineScores E q).length = E.length := by simp [cosineScores]
    refine ⟨?_, ?_, ?_, ?_⟩
    · show ((topIndices (cosineScores E q) k).map
        (fun i => (cosineScores E q).getD i 0)).Pairwise (fun a b => b ≤ a)
      rw [List.pairwise_map]
      exact topIndices_sorted (cosineScores E q) k
    · show ((topIndices (cosineScores E q) k).map
        (fun i => (cosineScores E q).getD i 0)).length = min k E.length
      rw [List.length_map, topIndices_length _ _ hk, hlen]
    · show ((topIndices (cosineScores E q) k).map
        (fun i => documents.getD i "")).length = min k E.length
      rw [List.length_map, topIndices_length _ _ hk, hlen]
    · intro i hi hni j hj
      exact topIndices_dominant (cosineScores E q) k i (by omega) hni j hj

/-- C6 witness: both parts applied at a one-row corpus, with the index bound
and the k bound discharged concretely. -/
theorem semantic_scorer_spec_witness :
    ((cosineScores [[(1 : ℝ)]] [1]).getD 0 0 =
      npDot ([[(1 : ℝ)]].getD 0 []) [1] /
        (npNorm ([[(1 : ℝ)]].getD 0 []) * npNorm [1] + 1e-9)) ∧
    ((SimpleRetriever.retrieve ["a"] [[(1 : ℝ)]] [1] 1).2.Pairwise
        (fun a b => b ≤ a) ∧
      (SimpleRetriever.retrieve ["a"] [[(1 : ℝ)]] [1] 1).2.length =
        min 1 ([[(1 : ℝ)]].length) ∧
      (SimpleRetriever.retrieve ["a"] [[(1 : ℝ)]] [1] 1).1.length =
        min 1 ([[(1 : ℝ)]].length) ∧
      (∀ i : Nat, i < ([[(1 : ℝ)]].length) →
        i ∉ topIndices (cosineScores [[(1 : ℝ)]] [1]) 1 →
        ∀ j ∈ topIndices (cosineScores [[(1 : ℝ)]] [1]) 1,
          (cosineScores [[(1 : ℝ)]] [1]).getD i 0 ≤
            (cosineScores [[(1 : ℝ)]] [1]).getD j 0)) :=
  ⟨semantic_scorer_spec.1 [[(1 : ℝ)]] [1] 0 (by decide),
   semantic_scorer_spec.2 ["a"] [[(1 : ℝ)]] [1] 1 (by decide)⟩
